import Mathlib

/-!
Verification of the MusicTrendsAnalysis pipeline (`src/merge_csv.py`).

We shallowly embed the pipeline's data model and operations:
  * filename metadata extraction (`extract_country_from_filename`,
    `extract_date_from_filename`),
  * the per-country merge and date cleaning (`merge_by_country`),
  * the aggregate analyzers cited by the specification
    (`analyze_streaming_by_month`, `analyze_monthly_top_artists_and_tracks`,
    `analyze_growth_rate_of_artists_and_tracks`).

pandas DataFrames are modelled as Lists of row structures; numeric stream
counts as `Option ℤ` (`none` = null/NaN, `some z` = a concrete value; stream
counts are integral, and exact arithmetic stands in for pandas floats, which
is faithful for the sums, comparisons and concrete values the claims
mention); fallible operations return `Except String`.
Derived columns that the analyzers write back into the shared table
(`Month`) are modelled as `Option`-valued fields that start out `none`
(column absent) and are filled in by the analyzer that assigns them.
-/

namespace MusicTrends

/-- Python's `file_name.split('-')`: splits a character list on `'-'`,
keeping empty segments, and yielding `[s]` when no dash occurs
(`''.split('-') == ['']`). -/
def splitDash : List Char → List (List Char)
  | [] => [[]]
  | c :: rest =>
    if c = '-' then [] :: splitDash rest
    else
      match splitDash rest with
      | g :: gs => (c :: g) :: gs
      | [] => [[c]]

/-- Python's `str.upper()` on the ASCII filenames the pipeline consumes. -/
def upperChars (cs : List Char) : List Char := cs.map Char.toUpper

/-- Embedding of `extract_country_from_filename` (merge_csv.py lines 6–16): split the
filename on `'-'`; if there is more than one part return the second part
upper-cased, else the sentinel `"UNKNOWN"`. -/
def extract_country_from_filename (file_name : String) : String :=
  match splitDash file_name.data with
  | _ :: p1 :: _ => String.mk (upperChars p1)
  | _ => "UNKNOWN"

/-- The `re.search(r"\d{4}-\d{2}-\d{2}", ...)` pattern, tried at the head of
the character list: ten characters shaped `DDDD-DD-DD`. -/
def matchDateAt (cs : List Char) : Option (List Char) :=
  match cs with
  | d1 :: d2 :: d3 :: d4 :: '-' :: m1 :: m2 :: '-' :: t1 :: t2 :: _ =>
    if [d1, d2, d3, d4, m1, m2, t1, t2].all Char.isDigit then
      some [d1, d2, d3, d4, '-', m1, m2, '-', t1, t2]
    else none
  | _ => none

/-- Model of `re.search`: the leftmost match of the date pattern in the filename. -/
def findDate : List Char → Option (List Char)
  | [] => none
  | c :: rest =>
    match matchDateAt (c :: rest) with
    | some m => some m
    | none => findDate rest

/-- Numeric value of a digit character. -/
def digitVal (c : Char) : Nat := c.toNat - '0'.toNat

/-- A calendar date, as produced by a successful `pd.to_datetime` parse. -/
structure DateT where
  year : Nat
  month : Nat
  day : Nat
deriving DecidableEq, Repr

/-- Gregorian leap-year rule (as used by `pd.to_datetime`). -/
def isLeap (y : Nat) : Bool := (y % 4 == 0 && y % 100 != 0) || y % 400 == 0

/-- Days in a month of the proleptic Gregorian calendar. -/
def daysInMonth (y m : Nat) : Nat :=
  if m == 2 then (if isLeap y then 29 else 28)
  else if m == 4 || m == 6 || m == 9 || m == 11 then 30
  else 31

/-- Lexicographic order on (year, month, day) triples. -/
def dateLE (a b : DateT) : Bool :=
  a.year < b.year ∨ (a.year = b.year ∧
    (a.month < b.month ∨ (a.month = b.month ∧ a.day ≤ b.day)))

/-- Validity of a (year, month, day) triple for `pd.to_datetime`: a real
Gregorian calendar date that also lies inside the pandas `Timestamp`
nanosecond range (whole days 1677-09-22 through 2262-04-11); out-of-range
dates raise `OutOfBoundsDatetime`, a `ValueError` subclass, hence count as
invalid to the caller's `except ValueError`. -/
def validYmd (y m d : Nat) : Bool :=
  1 ≤ m && m ≤ 12 && 1 ≤ d && d ≤ daysInMonth y m
    && dateLE ⟨1677, 9, 22⟩ ⟨y, m, d⟩ && dateLE ⟨y, m, d⟩ ⟨2262, 4, 11⟩

/-- Model of `pd.to_datetime(s, format="%Y-%m-%d")`: parse a string that is exactly
`YYYY-MM-DD` into a valid calendar date, `none` on any failure. -/
def parseYmd (s : String) : Option DateT :=
  match s.data with
  | [d1, d2, d3, d4, '-', m1, m2, '-', t1, t2] =>
    if [d1, d2, d3, d4, m1, m2, t1, t2].all Char.isDigit then
      let y := ((digitVal d1 * 10 + digitVal d2) * 10 + digitVal d3) * 10 + digitVal d4
      let m := digitVal m1 * 10 + digitVal m2
      let d := digitVal t1 * 10 + digitVal t2
      if validYmd y m d then some ⟨y, m, d⟩ else none
    else none
  | _ => none

/-- Embedding of `extract_date_from_filename` (merge_csv.py lines 19–35): regex-search
the filename for `\d{4}-\d{2}-\d{2}`; if a match is found, validate it with
`pd.to_datetime` and return it, or `"INVALID_DATE"` when validation raises
`ValueError`; with no match return `"UNKNOWN"`. -/
def extract_date_from_filename (file_name : String) : String :=
  match findDate file_name.data with
  | some m =>
    if (parseYmd (String.mk m)).isSome then String.mk m else "INVALID_DATE"
  | none => "UNKNOWN"

/-- One data row of a source chart CSV file.  Of the chart columns only
`artist_names`, `track_name` and `streams` are consumed by the analyzers the
claims cite; the remaining columns (rank, uri, …) are carried through the
merge unchanged and are omitted from the model.  `streams` is `none` when
the cell is null/NaN; stream counts are integral, so `ℤ` models the pandas
column faithfully for the sums and order comparisons the claims involve
(division to `ℚ` happens only inside the growth-rate analyzer). -/
structure RawRow where
  artist_names : String
  track_name : String
  streams : Option ℤ
deriving DecidableEq, Repr

/-- One CSV file discovered by the `os.walk` scan: its base name and its
content; `content = none` models a file `pd.read_csv` fails to parse
(unreadable or malformed), in which case `read_csv` raises. -/
structure SrcFile where
  name : String
  content : Option (List RawRow)
deriving DecidableEq, Repr

/-- A row of the merged table before date coercion: a chart row tagged with
the `Country` and `Date` (still a string) taken from its file's name. -/
structure MRow where
  artist_names : String
  track_name : String
  streams : Option ℤ
  Country : String
  Date : String
deriving DecidableEq, Repr

/-- A row of the cleaned merged table (after
`pd.to_datetime(..., errors='coerce')` plus `dropna(subset=['Date'])`): the
`Date` is now a parsed calendar date.  `month` models the derived `Month`
column some analyzers assign into the shared table; it is `none` while the
column is absent. -/
structure CRow where
  artist_names : String
  track_name : String
  streams : Option ℤ
  Country : String
  Date : DateT
  month : Option (Nat × Nat) := none
deriving DecidableEq, Repr

/-- The `country_data` dict: insertion-ordered association list from country
to its accumulated rows; a repeated country concatenates (`pd.concat`). -/
def insertCountry : List (String × List MRow) → String → List MRow →
    List (String × List MRow)
  | [], c, rs => [(c, rs)]
  | (c', rs') :: rest, c, rs =>
    if c' = c then (c', rs' ++ rs) :: rest
    else (c', rs') :: insertCountry rest c rs

/-- The body of the per-file loop of `merge_by_country` (lines 57–73):
extract country and date from the filename; skip (with a log line) when the
date is a sentinel; otherwise read the CSV — an unparseable file makes
`pd.read_csv` raise, aborting the run — tag every row with `Country` and
`Date`, and fold it into `country_data`. -/
def mergeStep (acc : List (String × List MRow)) (f : SrcFile) :
    Except String (List (String × List MRow)) :=
  let country := extract_country_from_filename f.name
  let date := extract_date_from_filename f.name
  if date = "INVALID_DATE" ∨ date = "UNKNOWN" then
    Except.ok acc
  else
    match f.content with
    | none => Except.error ("read_csv failed: " ++ f.name)
    | some rows =>
      Except.ok (insertCountry acc country
        (rows.map fun r => ⟨r.artist_names, r.track_name, r.streams, country, date⟩))

/-- Date cleaning of one merged row (lines 84–87):
`pd.to_datetime(Date, format="%Y-%m-%d", errors='coerce')` followed by
`dropna(subset=['Date'])` keeps exactly the rows whose `Date` string parses
as a valid calendar date. -/
def coerceDate (r : MRow) : Option CRow :=
  match parseYmd r.Date with
  | some d => some ⟨r.artist_names, r.track_name, r.streams, r.Country, d, none⟩
  | none => none

/-- Embedding of `merge_by_country` (lines 38–91), up to the write of
`final_merged_data.csv`: discover the files, build `country_data`,
concatenate the per-country tables (`pd.concat` raises
`ValueError("No objects to concatenate")` on an empty dict), then coerce and
clean the `Date` column.  Returns the cleaned merged table that is written
to `final_merged_data.csv` and passed to every analyzer. -/
def merge_by_country (files : List SrcFile) : Except String (List CRow) :=
  match files.foldlM mergeStep [] with
  | Except.error e => Except.error e
  | Except.ok country_data =>
    if country_data.isEmpty then
      Except.error "No objects to concatenate"
    else
      Except.ok (((country_data.map Prod.snd).foldr (· ++ ·) []).filterMap coerceDate)

/-! ### Group-by infrastructure

`groupby` with pandas' default `sort=True` lists the distinct group keys in
ascending order.  We build that key list incrementally: a sorted insert that
skips keys already present. -/

/-- Insert into a sorted list according to a boolean strict order. -/
def insertSorted (lt : α → α → Bool) (k : α) : List α → List α
  | [] => [k]
  | k' :: rest => if lt k k' then k :: k' :: rest else k' :: insertSorted lt k rest

/-- Add a key to a sorted duplicate-free key list, keeping it so. -/
def addKey [DecidableEq α] (lt : α → α → Bool) (l : List α) (k : α) : List α :=
  if k ∈ l then l else insertSorted lt k l

/-- The distinct keys of a column, in ascending order — the group keys of a
pandas `groupby(..., sort=True)`. -/
def sortedKeys [DecidableEq α] (lt : α → α → Bool) (ks : List α) : List α :=
  ks.foldl (addKey lt) []

/-- Strict lexicographic order on character lists (Python string `<`). -/
def ltChars : List Char → List Char → Bool
  | [], [] => false
  | [], _ :: _ => true
  | _ :: _, [] => false
  | a :: as, b :: bs => if a < b then true else if b < a then false else ltChars as bs

/-- Python string comparison, on the underlying characters. -/
def strLtB (a b : String) : Bool := ltChars a.data b.data

/-- Strict order on `(year, month)` pairs — chronological order of the
`Month` periods produced by `to_period('M')`. -/
def monthLTB (a b : Nat × Nat) : Bool := a.1 < b.1 || (a.1 == b.1 && a.2 < b.2)

/-- Non-strict chronological order on `(year, month)` pairs. -/
def monthLEB (a b : Nat × Nat) : Bool := a.1 < b.1 || (a.1 == b.1 && a.2 ≤ b.2)

/-! ### `analyze_streaming_by_month` (merge_csv.py lines 108–127) -/

/-- Model of `pd.to_datetime(data['Date']).dt.to_period('M')` on one row: its
`(year, month)` period. -/
def monthKey (r : CRow) : Nat × Nat := (r.Date.year, r.Date.month)

/-- Line 119: `data['Month'] = pd.to_datetime(data['Date']).dt.to_period('M')`
— an in-place assignment of the derived `Month` column into the shared
table. -/
def setMonthCol (data : List CRow) : List CRow :=
  data.map fun r => { r with month := some (monthKey r) }

/-- The sorted distinct values of the `Country` column. -/
def countriesOf (data : List CRow) : List String :=
  sortedKeys strLtB (data.map (·.Country))

/-- The sorted distinct `(year, month)` periods of one country's rows.
On a table produced by `setMonthCol` the assigned `Month` column equals
`monthKey` of each row, so grouping on the column is grouping on
`monthKey`. -/
def monthsOf (data : List CRow) (c : String) : List (Nat × Nat) :=
  sortedKeys monthLTB ((data.filter (fun r => r.Country == c)).map monthKey)

/-- The NaN-skipping pandas `sum` of the `streams` of one
`(Country, Month)` group (a group whose values are all null sums to 0). -/
def monthSum (data : List CRow) (c : String) (m : Nat × Nat) : ℤ :=
  ((data.filter (fun r => r.Country == c && monthKey r == m)).map
    (fun r => r.streams.getD 0)).sum

/-- A row of the `monthly_streams` aggregate. -/
structure GRow where
  Country : String
  Month : Nat × Nat
  Total_Streams : ℤ
deriving DecidableEq, Repr

/-- Lines 120–122: `data.groupby(['Country','Month']).agg(Total_Streams=
('streams','sum')).reset_index()` — one row per distinct (Country, Month)
key, keys ascending (country-major, then month), with the group's summed
streams. -/
def monthly_streams (data : List CRow) : List GRow :=
  (countriesOf data).flatMap fun c =>
    (monthsOf data c).map fun m => ⟨c, m, monthSum data c m⟩

/-- Model of `Series.idxmax` over a group: the first row attaining the maximum of
`f`, `none` on an empty group (`idxmax` raises there, but every group a
`groupby` produces is non-empty). -/
def firstMaxBy (f : α → ℤ) : List α → Option α
  | [] => none
  | x :: xs =>
    match firstMaxBy f xs with
    | none => some x
    | some y => if f y ≤ f x then some x else some y

/-- A row of the `max_streams_by_month.csv` output (after the rename of
`Total_Streams` to `Max_Streams`). -/
structure MaxRow where
  Country : String
  Month : Nat × Nat
  Max_Streams : ℤ
deriving DecidableEq, Repr

/-- Embedding of `analyze_streaming_by_month` (lines 108–127): assign the `Month` column
into the shared table, aggregate monthly streams per country, and keep, for
each country, the first row of its group attaining the maximal
`Total_Streams` (`idxmax`), renamed to `Max_Streams`.  Returns the written
result table together with the shared table as the analyzer leaves it. -/
def analyze_streaming_by_month (data : List CRow) : List MaxRow × List CRow :=
  let d := setMonthCol data
  let ms := monthly_streams d
  (((countriesOf d).filterMap fun c =>
      (firstMaxBy (fun g => g.Total_Streams)
        (ms.filter (fun g => g.Country == c))).map
        fun g => ⟨g.Country, g.Month, g.Total_Streams⟩),
   d)

/-! ### `analyze_monthly_top_artists_and_tracks` (merge_csv.py lines 198–221) -/

/-- Stable insert for a boolean non-strict order. -/
def insertLe (le : α → α → Bool) (x : α) : List α → List α
  | [] => [x]
  | y :: ys => if le x y then x :: y :: ys else y :: insertLe le x ys

/-- Stable sort by a boolean non-strict total order (`sort_values`; pandas'
default quicksort is unstable, but instability is observable only between
rows whose whole sort key ties, which no claim touches). -/
def sortByLe (le : α → α → Bool) (xs : List α) : List α :=
  xs.foldr (insertLe le) []

/-- A row of the `monthly_top_tracks` aggregate. -/
structure TRow where
  Country : String
  Month : Nat × Nat
  track_name : String
  artist_names : String
  Total_Streams : ℤ
deriving DecidableEq, Repr

/-- The `(Country, Month, track_name, artist_names)` group key of a row. -/
def tmKey (r : CRow) : String × (Nat × Nat) × String × String :=
  (r.Country, monthKey r, r.track_name, r.artist_names)

/-- Strict lexicographic order on the four-part group key. -/
def key4LT (a b : String × (Nat × Nat) × String × String) : Bool :=
  strLtB a.1 b.1 || (a.1 == b.1 &&
    (monthLTB a.2.1 b.2.1 || (a.2.1 == b.2.1 &&
      (strLtB a.2.2.1 b.2.2.1 || (a.2.2.1 == b.2.2.1 &&
        strLtB a.2.2.2 b.2.2.2)))))

/-- Lines 213–215: `data.groupby(['Country','Month','track_name',
'artist_names']).agg(Total_Streams=('streams','sum')).reset_index()` — one
row per distinct key, keys in ascending lexicographic order. -/
def monthly_top_tracks (data : List CRow) : List TRow :=
  (sortedKeys key4LT (data.map tmKey)).map fun k =>
    ⟨k.1, k.2.1, k.2.2.1, k.2.2.2,
      ((data.filter (fun r => tmKey r == k)).map (fun r => r.streams.getD 0)).sum⟩

/-- The comparator of line 217's
`sort_values(['Country','Month','Total_Streams'], ascending=[True,True,False])`. -/
def topSortLE (a b : TRow) : Bool :=
  strLtB a.Country b.Country || (a.Country == b.Country &&
    (monthLTB a.Month b.Month || (a.Month == b.Month &&
      decide (b.Total_Streams ≤ a.Total_Streams))))

/-- Strict lexicographic order on `(Country, Month)` keys. -/
def cmLT (a b : String × Nat × Nat) : Bool :=
  strLtB a.1 b.1 || (a.1 == b.1 && monthLTB a.2 b.2)

/-- Line 218: `monthly_top_tracks.groupby(['Country','Month']).head(5)` —
keep the first (at most) five rows of every `(Country, Month)` group, in
frame order.  The frame is sorted by the four-part key, so the groups are
contiguous blocks in ascending `(Country, Month)` order. -/
def head5PerGroup (rows : List TRow) : List TRow :=
  (sortedKeys cmLT (rows.map fun r => (r.Country, r.Month))).flatMap fun k =>
    (rows.filter (fun r => r.Country == k.1 && r.Month == k.2)).take 5

/-- Embedding of `analyze_monthly_top_artists_and_tracks` (lines 198–221): assign the
`Month` column, aggregate streams per four-part key, compute the
descending-by-streams sort of line 217 — whose result line 218 immediately
overwrites, so the written table is `head(5)` of the *unsorted* (key-sorted)
aggregate.  The discarded sort is kept below as
`top_monthly_tracks_sorted`. -/
def analyze_monthly_top_artists_and_tracks (data : List CRow) :
    List TRow × List CRow :=
  let d := setMonthCol data
  (head5PerGroup (monthly_top_tracks d), d)

/-- Line 217's sorted table (the dead store): what line 218 would have had
to consume for a true top-5 selection. -/
def top_monthly_tracks_sorted (data : List CRow) : List TRow :=
  sortByLe topSortLE (monthly_top_tracks (setMonthCol data))

/-! ### `analyze_growth_rate_of_artists_and_tracks` (merge_csv.py
lines 252–285) -/

/-- A float value of the `Growth_Rate` column: a finite number, or the
`±inf` that pandas `pct_change` produces on a zero predecessor.  The `NaN`s
(first row of a group, or a 0→0 step) are already replaced by the code's
`fillna(0)`. -/
inductive PVal where
  | val (q : ℚ)
  | posInf
  | negInf
deriving DecidableEq, Repr

/-- One `pct_change` step followed by `.fillna(0) * 100`: the percent change
from `prev` to `cur`; a zero `prev` gives `±inf` (or `NaN → 0` for `0/0`). -/
def pctRate (prev cur : ℤ) : PVal :=
  if prev = 0 then
    (if cur > 0 then .posInf else if cur < 0 then .negInf else .val 0)
  else .val (((cur : ℚ) - (prev : ℚ)) / (prev : ℚ) * 100)

/-- Embedding of `determine_trend_status` (lines 272–278), applied to the `Growth_Rate`
float: Python's `inf > 5` is true and `-inf < -5` is true. -/
def determine_trend_status : PVal → String
  | .posInf => "Growth"
  | .negInf => "Decline"
  | .val g => if g > 5 then "Growth" else if g < -5 then "Decline" else "Stable"

/-- Line 268: `data['streams'] = data['streams'].fillna(0)` — an in-place
overwrite of the shared table's `streams` column. -/
def fillnaStreams (data : List CRow) : List CRow :=
  data.map fun r => { r with streams := some (r.streams.getD 0) }

/-- Line 269's comparator:
`sort_values(by=['Country','artist_names','track_name','Date'])`. -/
def growthSortLE (a b : CRow) : Bool :=
  strLtB a.Country b.Country || (a.Country == b.Country &&
    (strLtB a.artist_names b.artist_names || (a.artist_names == b.artist_names &&
      (strLtB a.track_name b.track_name || (a.track_name == b.track_name &&
        dateLE a.Date b.Date)))))

/-- A row of the `growth_rate_analysis.csv` output (the columns selected on
line 282). -/
structure GrRow where
  Country : String
  artist_names : String
  track_name : String
  Date : DateT
  streams : ℤ
  Growth_Rate : PVal
  Trend_Status : String
deriving DecidableEq, Repr

/-- Line 270's `groupby(['Country','artist_names','track_name'])['streams']
.pct_change().fillna(0) * 100`, with line 280's `Trend_Status`: after the
sort the rows of each group are contiguous and date-ordered, so the
group-wise percent change of a row compares it with the directly preceding
row exactly when that row carries the same group key; the first row of each
group gets `NaN → 0`. -/
def growthScan (lastKey : Option (String × String × String)) (lastStreams : ℤ) :
    List CRow → List GrRow
  | [] => []
  | r :: rest =>
    let s := r.streams.getD 0
    let key := (r.Country, r.artist_names, r.track_name)
    let rate := if some key = lastKey then pctRate lastStreams s else PVal.val 0
    ⟨r.Country, r.artist_names, r.track_name, r.Date, s, rate,
      determine_trend_status rate⟩ :: growthScan (some key) s rest

/-- Embedding of `analyze_growth_rate_of_artists_and_tracks` (lines 252–285): zero-fill
null streams in place in the shared table, sort a copy by (Country, artist,
track, Date), compute group-wise growth rates and trend statuses, and select
the output columns.  Returns the written result together with the shared
table as the analyzer leaves it (only the `streams` fill is in place; the
sort and the new columns live on the copy). -/
def analyze_growth_rate_of_artists_and_tracks (data : List CRow) :
    List GrRow × List CRow :=
  let d0 := fillnaStreams data
  (growthScan none 0 (sortByLe growthSortLE d0), d0)

/-! ### Lemmas about the group-key infrastructure -/

theorem insertSorted_perm (lt : α → α → Bool) (k : α) (l : List α) :
    List.Perm (insertSorted lt k l) (k :: l) := by
  induction l with
  | nil => simp [insertSorted]
  | cons y ys ih =>
    by_cases h : lt k y = true
    · simp [insertSorted, h]
    · simp only [insertSorted, h, if_false]
      exact ((ih.cons y).trans (List.Perm.swap k y ys))

theorem mem_insertSorted (lt : α → α → Bool) (k a : α) (l : List α) :
    a ∈ insertSorted lt k l ↔ a = k ∨ a ∈ l := by
  rw [(insertSorted_perm lt k l).mem_iff]; simp

theorem nodup_insertSorted (lt : α → α → Bool) (k : α) (l : List α)
    (hk : k ∉ l) (hl : l.Nodup) : (insertSorted lt k l).Nodup :=
  (insertSorted_perm lt k l).nodup_iff.mpr (List.nodup_cons.mpr ⟨hk, hl⟩)

theorem pairwise_insertSorted (lt : α → α → Bool)
    (htot : ∀ a b, a ≠ b → lt a b = true ∨ lt b a = true)
    (htrans : ∀ a b c, lt a b = true → lt b c = true → lt a c = true)
    (k : α) (l : List α) (hk : k ∉ l)
    (hp : l.Pairwise (fun a b => lt a b = true)) :
    (insertSorted lt k l).Pairwise (fun a b => lt a b = true) := by
  induction l with
  | nil => simp [insertSorted]
  | cons y ys ih =>
    rw [List.pairwise_cons] at hp
    by_cases h : lt k y = true
    · simp only [insertSorted, h, if_true]
      refine List.Pairwise.cons ?_ (List.Pairwise.cons hp.1 hp.2)
      intro b hb
      rcases List.mem_cons.mp hb with rfl | hb
      · exact h
      · exact htrans k y b h (hp.1 b hb)
    · simp only [insertSorted, h, if_false]
      refine List.Pairwise.cons ?_ (ih (fun h' => hk (List.mem_cons_of_mem y h')) hp.2)
      intro b hb
      rcases (mem_insertSorted lt k b ys).mp hb with rfl | hb
      · rcases htot b y (fun h' => hk (h' ▸ List.mem_cons_self b ys)) with h' | h'
        · exact absurd h' h
        · exact h'
      · exact hp.1 b hb

theorem mem_addKey [DecidableEq α] (lt : α → α → Bool) (l : List α) (k a : α) :
    a ∈ addKey lt l k ↔ a = k ∨ a ∈ l := by
  unfold addKey
  by_cases h : k ∈ l
  · simp only [h, if_true]
    constructor
    · exact Or.inr
    · rintro (rfl | ha) <;> assumption
  · simp [h, mem_insertSorted]

theorem nodup_addKey [DecidableEq α] (lt : α → α → Bool) (l : List α) (k : α)
    (hl : l.Nodup) : (addKey lt l k).Nodup := by
  unfold addKey
  by_cases h : k ∈ l
  · simpa [h]
  · simpa [h] using nodup_insertSorted lt k l h hl

theorem pairwise_addKey [DecidableEq α] (lt : α → α → Bool)
    (htot : ∀ a b, a ≠ b → lt a b = true ∨ lt b a = true)
    (htrans : ∀ a b c, lt a b = true → lt b c = true → lt a c = true)
    (l : List α) (k : α) (hp : l.Pairwise (fun a b => lt a b = true)) :
    (addKey lt l k).Pairwise (fun a b => lt a b = true) := by
  unfold addKey
  by_cases h : k ∈ l
  · simpa [h]
  · simpa [h] using pairwise_insertSorted lt htot htrans k l h hp

theorem mem_foldl_addKey [DecidableEq α] (lt : α → α → Bool) (a : α) :
    ∀ (ks init : List α), a ∈ ks.foldl (addKey lt) init ↔ a ∈ init ∨ a ∈ ks := by
  intro ks
  induction ks with
  | nil => simp
  | cons k rest ih =>
    intro init
    rw [List.foldl_cons, ih, mem_addKey]
    constructor
    · rintro ((rfl | h) | h)
      · exact Or.inr (List.mem_cons_self a rest)
      · exact Or.inl h
      · exact Or.inr (List.mem_cons_of_mem k h)
    · rintro (h | h)
      · exact Or.inl (Or.inr h)
      · rcases List.mem_cons.mp h with rfl | h
        · exact Or.inl (Or.inl rfl)
        · exact Or.inr h

theorem mem_sortedKeys [DecidableEq α] (lt : α → α → Bool) (ks : List α) (a : α) :
    a ∈ sortedKeys lt ks ↔ a ∈ ks := by
  unfold sortedKeys
  rw [mem_foldl_addKey]
  simp

theorem nodup_sortedKeys [DecidableEq α] (lt : α → α → Bool) (ks : List α) :
    (sortedKeys lt ks).Nodup := by
  unfold sortedKeys
  suffices h : ∀ init : List α, init.Nodup → (ks.foldl (addKey lt) init).Nodup by
    exact h [] List.nodup_nil
  induction ks with
  | nil => intro init h; simpa
  | cons k rest ih =>
    intro init h
    exact ih (addKey lt init k) (nodup_addKey lt init k h)

theorem pairwise_sortedKeys [DecidableEq α] (lt : α → α → Bool)
    (htot : ∀ a b, a ≠ b → lt a b = true ∨ lt b a = true)
    (htrans : ∀ a b c, lt a b = true → lt b c = true → lt a c = true)
    (ks : List α) : (sortedKeys lt ks).Pairwise (fun a b => lt a b = true) := by
  unfold sortedKeys
  suffices h : ∀ init : List α, init.Pairwise (fun a b => lt a b = true) →
      (ks.foldl (addKey lt) init).Pairwise (fun a b => lt a b = true) by
    exact h [] List.Pairwise.nil
  induction ks with
  | nil => intro init h; simpa
  | cons k rest ih =>
    intro init h
    exact ih (addKey lt init k) (pairwise_addKey lt htot htrans init k h)

theorem sortedKeys_ne_nil [DecidableEq α] (lt : α → α → Bool) (ks : List α)
    (a : α) (ha : a ∈ ks) : sortedKeys lt ks ≠ [] := by
  intro h
  have := (mem_sortedKeys lt ks a).mpr ha
  rw [h] at this
  exact List.not_mem_nil a this

/-! ### Lemmas about `firstMaxBy` (the `idxmax` model) -/

theorem firstMaxBy_isSome (f : α → ℤ) (l : List α) (h : l ≠ []) :
    ∃ x, firstMaxBy f l = some x := by
  cases l with
  | nil => exact absurd rfl h
  | cons a as =>
    unfold firstMaxBy
    cases firstMaxBy f as with
    | none => exact ⟨a, rfl⟩
    | some y =>
      by_cases hle : f y ≤ f a
      · exact ⟨a, by simp [hle]⟩
      · exact ⟨y, by simp [hle]⟩

theorem firstMaxBy_mem (f : α → ℤ) (l : List α) (x : α)
    (hx : firstMaxBy f l = some x) : x ∈ l := by
  induction l with
  | nil => simp [firstMaxBy] at hx
  | cons a as ih =>
    unfold firstMaxBy at hx
    cases hy : firstMaxBy f as with
    | none =>
      rw [hy] at hx
      simp only [Option.some.injEq] at hx
      subst hx
      exact List.mem_cons_self a as
    | some y =>
      rw [hy] at hx
      by_cases hle : f y ≤ f a
      · simp only [hle, if_true, Option.some.injEq] at hx
        subst hx
        exact List.mem_cons_self a as
      · simp only [hle, if_false, Option.some.injEq] at hx
        subst hx
        exact List.mem_cons_of_mem a (ih hy)

theorem firstMaxBy_le (f : α → ℤ) (l : List α) (x : α)
    (hx : firstMaxBy f l = some x) : ∀ y ∈ l, f y ≤ f x := by
  induction l generalizing x with
  | nil => simp [firstMaxBy] at hx
  | cons a as ih =>
    unfold firstMaxBy at hx
    cases hy : firstMaxBy f as with
    | none =>
      rw [hy] at hx
      simp only [Option.some.injEq] at hx
      subst hx
      cases as with
      | nil =>
        intro y hyl
        rcases List.mem_cons.mp hyl with rfl | hyl
        · exact le_refl _
        · exact absurd hyl (List.not_mem_nil y)
      | cons b bs =>
        obtain ⟨w, hw⟩ := firstMaxBy_isSome f (b :: bs) (by simp)
        rw [hw] at hy
        cases hy
    | some y =>
      rw [hy] at hx
      by_cases hle : f y ≤ f a
      · simp only [hle, if_true, Option.some.injEq] at hx
        subst hx
        intro z hz
        rcases List.mem_cons.mp hz with rfl | hz
        · exact le_refl _
        · exact le_trans (ih y hy z hz) hle
      · simp only [hle, if_false, Option.some.injEq] at hx
        subst hx
        intro z hz
        rcases List.mem_cons.mp hz with rfl | hz
        · exact le_of_lt (lt_of_not_le hle)
        · exact ih y hy z hz

/-- The `idxmax` model returns the *first* maximising row: anything ranked after the
returned row by a `Pairwise` relation on the list can only tie it, never
precede it. -/
theorem firstMaxBy_pairwise {R : α → α → Prop} (f : α → ℤ) (l : List α)
    (hp : l.Pairwise R) (x : α) (hx : firstMaxBy f l = some x)
    (y : α) (hy : y ∈ l) (hfy : f x ≤ f y) : x = y ∨ R x y := by
  induction l with
  | nil => simp [firstMaxBy] at hx
  | cons a as ih =>
    rw [List.pairwise_cons] at hp
    unfold firstMaxBy at hx
    cases hz : firstMaxBy f as with
    | none =>
      rw [hz] at hx
      simp only [Option.some.injEq] at hx
      subst hx
      cases as with
      | nil =>
        rcases List.mem_cons.mp hy with rfl | hy
        · exact Or.inl rfl
        · exact absurd hy (List.not_mem_nil y)
      | cons b bs =>
        obtain ⟨w, hw⟩ := firstMaxBy_isSome f (b :: bs) (by simp)
        rw [hw] at hz
        cases hz
    | some z =>
      rw [hz] at hx
      by_cases hle : f z ≤ f a
      · simp only [hle, if_true, Option.some.injEq] at hx
        subst hx
        rcases List.mem_cons.mp hy with rfl | hy
        · exact Or.inl rfl
        · exact Or.inr (hp.1 y hy)
      · simp only [hle, if_false, Option.some.injEq] at hx
        subst hx
        rcases List.mem_cons.mp hy with rfl | hy
        · exact absurd hfy hle
        · exact ih hp.2 hz hy

/-! ### Order properties of the key comparators -/

theorem monthLTB_total (a b : Nat × Nat) (h : a ≠ b) :
    monthLTB a b = true ∨ monthLTB b a = true := by
  rcases a with ⟨a1, a2⟩
  rcases b with ⟨b1, b2⟩
  simp only [monthLTB, Bool.or_eq_true, Bool.and_eq_true, beq_iff_eq,
    decide_eq_true_eq]
  have hne : a1 ≠ b1 ∨ a2 ≠ b2 := by
    by_contra hc
    push_neg at hc
    exact h (by simp [hc.1, hc.2])
  omega

theorem monthLTB_trans (a b c : Nat × Nat) (hab : monthLTB a b = true)
    (hbc : monthLTB b c = true) : monthLTB a c = true := by
  rcases a with ⟨a1, a2⟩
  rcases b with ⟨b1, b2⟩
  rcases c with ⟨c1, c2⟩
  simp only [monthLTB, Bool.or_eq_true, Bool.and_eq_true, beq_iff_eq,
    decide_eq_true_eq] at *
  omega

theorem monthLTB_imp_monthLEB (a b : Nat × Nat) (h : monthLTB a b = true) :
    monthLEB a b = true := by
  rcases a with ⟨a1, a2⟩
  rcases b with ⟨b1, b2⟩
  simp only [monthLTB, monthLEB, Bool.or_eq_true, Bool.and_eq_true, beq_iff_eq,
    decide_eq_true_eq] at *
  omega

theorem monthLEB_refl (a : Nat × Nat) : monthLEB a a = true := by
  simp [monthLEB]

/-! ### Selecting one country's block out of a grouped table -/

theorem filter_flatMap_eq_nil {α β : Type} [BEq α] [LawfulBEq α]
    (key : β → α) (c : α) (l : List α) (f : α → List β)
    (hf : ∀ c' ∈ l, ∀ g ∈ f c', key g = c') (hc : c ∉ l) :
    ((l.flatMap f).filter (fun g => key g == c)) = [] := by
  induction l with
  | nil => simp
  | cons a as ih =>
    rw [List.flatMap_cons, List.filter_append]
    have h1 : (f a).filter (fun g => key g == c) = [] := by
      apply List.filter_eq_nil_iff.mpr
      intro g hg
      have := hf a (List.mem_cons_self a as) g hg
      simp only [beq_iff_eq, this]
      intro h
      exact hc (h ▸ List.mem_cons_self a as)
    rw [h1, List.nil_append]
    exact ih (fun c' hc' g hg => hf c' (List.mem_cons_of_mem a hc') g hg)
      (fun h => hc (List.mem_cons_of_mem a h))

theorem filter_flatMap_blocks {α β : Type} [BEq α] [LawfulBEq α]
    (key : β → α) (c : α) (l : List α) (f : α → List β)
    (hf : ∀ c' ∈ l, ∀ g ∈ f c', key g = c') (hl : l.Nodup) (hc : c ∈ l) :
    ((l.flatMap f).filter (fun g => key g == c)) = f c := by
  induction l with
  | nil => exact absurd hc (List.not_mem_nil c)
  | cons a as ih =>
    rw [List.flatMap_cons, List.filter_append]
    rw [List.nodup_cons] at hl
    rcases List.mem_cons.mp hc with rfl | hc'
    · have h1 : (f c).filter (fun g => key g == c) = f c := by
        apply List.filter_eq_self.mpr
        intro g hg
        simp [hf c (List.mem_cons_self c as) g hg]
      rw [h1, filter_flatMap_eq_nil key c as f
        (fun c' hc' g hg => hf c' (List.mem_cons_of_mem c hc') g hg) hl.1,
        List.append_nil]
    · have hac : a ≠ c := fun h => hl.1 (h ▸ hc')
      have h1 : (f a).filter (fun g => key g == c) = [] := by
        apply List.filter_eq_nil_iff.mpr
        intro g hg
        simp only [beq_iff_eq, hf a (List.mem_cons_self a as) g hg]
        exact hac
      rw [h1, List.nil_append]
      exact ih (fun c' hc'' g hg => hf c' (List.mem_cons_of_mem a hc'') g hg)
        hl.2 hc'

theorem filterMap_eq_flatMap_toList {α β : Type} (F : α → Option β)
    (l : List α) : l.filterMap F = l.flatMap fun a => (F a).toList := by
  induction l with
  | nil => simp
  | cons a as ih =>
    cases h : F a <;> simp [List.filterMap_cons, h, ih]

theorem filter_filterMap_blocks {α β : Type} [BEq α] [LawfulBEq α]
    (key : β → α) (c : α) (l : List α) (F : α → Option β)
    (hf : ∀ c' ∈ l, ∀ g, F c' = some g → key g = c') (hl : l.Nodup)
    (hc : c ∈ l) :
    ((l.filterMap F).filter (fun g => key g == c)) = (F c).toList := by
  rw [filterMap_eq_flatMap_toList]
  exact filter_flatMap_blocks key c l _
    (fun c' hc' g hg => hf c' hc' g (by cases h : F c' <;> simp [h] at hg ⊢; exact hg ▸ rfl))
    hl hc

/-! ### Behaviour of `analyze_streaming_by_month` -/

theorem countriesOf_setMonthCol (data : List CRow) :
    countriesOf (setMonthCol data) = countriesOf data := by
  unfold countriesOf setMonthCol
  rw [List.map_map]
  rfl

theorem filter_setMonthCol (data : List CRow) (p : CRow → Bool)
    (hp : ∀ r, p { r with month := some (monthKey r) } = p r) :
    (setMonthCol data).filter p = setMonthCol (data.filter p) := by
  unfold setMonthCol
  rw [List.filter_map]
  congr 1
  apply List.filter_congr
  intro r _
  exact hp r

theorem monthsOf_setMonthCol (data : List CRow) (c : String) :
    monthsOf (setMonthCol data) c = monthsOf data c := by
  unfold monthsOf
  rw [filter_setMonthCol data (fun r => r.Country == c) (fun r => rfl)]
  unfold setMonthCol
  rw [List.map_map]
  rfl

theorem monthSum_setMonthCol (data : List CRow) (c : String) (m : Nat × Nat) :
    monthSum (setMonthCol data) c m = monthSum data c m := by
  unfold monthSum
  rw [filter_setMonthCol data (fun r => r.Country == c && monthKey r == m)
    (fun r => rfl)]
  unfold setMonthCol
  rw [List.map_map]
  rfl

theorem monthly_streams_filter (d : List CRow) (c : String)
    (hc : c ∈ countriesOf d) :
    (monthly_streams d).filter (fun g => g.Country == c) =
      (monthsOf d c).map (fun m => ⟨c, m, monthSum d c m⟩ : Nat × Nat → GRow) := by
  unfold monthly_streams
  exact filter_flatMap_blocks (fun g : GRow => g.Country) c (countriesOf d) _
    (fun c' _ g hg => by
      obtain ⟨m, _, rfl⟩ := List.mem_map.mp hg
      rfl)
    (nodup_sortedKeys _ _) hc

theorem mem_countriesOf (data : List CRow) (c : String) :
    c ∈ countriesOf data ↔ ∃ r ∈ data, r.Country = c := by
  unfold countriesOf
  rw [mem_sortedKeys]
  constructor
  · intro h
    obtain ⟨r, hr, hrc⟩ := List.mem_map.mp h
    exact ⟨r, hr, hrc⟩
  · rintro ⟨r, hr, rfl⟩
    exact List.mem_map.mpr ⟨r, hr, rfl⟩

theorem mem_monthsOf (data : List CRow) (c : String) (r : CRow)
    (hr : r ∈ data) (hrc : r.Country = c) : monthKey r ∈ monthsOf data c := by
  unfold monthsOf
  rw [mem_sortedKeys]
  exact List.mem_map.mpr ⟨r, List.mem_filter.mpr ⟨hr, by simp [hrc]⟩, rfl⟩

theorem pairwise_monthsOf (data : List CRow) (c : String) :
    (monthsOf data c).Pairwise (fun a b => monthLTB a b = true) :=
  pairwise_sortedKeys monthLTB monthLTB_total monthLTB_trans _

/-- C10: for every country that has at least one row in the merged
table, `analyze_streaming_by_month` outputs exactly one row for that
country; its `Max_Streams` equals the maximum over that country's months of
the summed streams (attained at the reported month, and at least every
month's sum), and among tying months the reported one is the earliest in
the sorted group order. -/
theorem C10_monthly_max_per_country (data : List CRow) (c : String)
    (h : ∃ r ∈ data, r.Country = c) :
    ∃ g : MaxRow,
      ((analyze_streaming_by_month data).1.filter
          (fun row => row.Country == c)) = [g] ∧
      g.Month ∈ monthsOf data c ∧
      g.Max_Streams = monthSum data c g.Month ∧
      (∀ m ∈ monthsOf data c, monthSum data c m ≤ g.Max_Streams) ∧
      (∀ m ∈ monthsOf data c, monthSum data c m = g.Max_Streams →
        monthLEB g.Month m = true) := by
  classical
  simp only [analyze_streaming_by_month]
  set d := setMonthCol data with hd
  have hcd : c ∈ countriesOf d := by
    rw [hd, countriesOf_setMonthCol, mem_countriesOf]
    exact h
  have hms := monthly_streams_filter d c hcd
  obtain ⟨r, hr, hrc⟩ := h
  have hmem : monthKey r ∈ monthsOf d c := by
    rw [hd, monthsOf_setMonthCol]
    exact mem_monthsOf data c r hr hrc
  have hLmem : (⟨c, monthKey r, monthSum d c (monthKey r)⟩ : GRow) ∈
      (monthsOf d c).map (fun m => (⟨c, m, monthSum d c m⟩ : GRow)) :=
    List.mem_map.mpr ⟨monthKey r, hmem, rfl⟩
  obtain ⟨g₀, hg₀⟩ := firstMaxBy_isSome (fun g : GRow => g.Total_Streams)
    _ (List.ne_nil_of_mem hLmem)
  have hblocks := filter_filterMap_blocks (fun row : MaxRow => row.Country) c
    (countriesOf d)
    (fun c' => (firstMaxBy (fun g : GRow => g.Total_Streams)
        ((monthly_streams d).filter (fun g => g.Country == c'))).map
        (fun g => (⟨g.Country, g.Month, g.Total_Streams⟩ : MaxRow)))
    (by
      intro c' _ g hg
      dsimp only at hg ⊢
      cases hfm : firstMaxBy (fun g : GRow => g.Total_Streams)
          ((monthly_streams d).filter (fun g => g.Country == c')) with
      | none => rw [hfm] at hg; cases hg
      | some y =>
        rw [hfm] at hg
        simp only [Option.map_some', Option.some.injEq] at hg
        have hy := firstMaxBy_mem _ _ _ hfm
        have := (List.mem_filter.mp hy).2
        rw [beq_iff_eq] at this
        rw [← hg]
        exact this)
    (nodup_sortedKeys _ _) hcd
  rw [hblocks]
  dsimp only
  rw [hms, hg₀]
  refine ⟨⟨g₀.Country, g₀.Month, g₀.Total_Streams⟩, rfl, ?_, ?_, ?_, ?_⟩
  · obtain ⟨m, hm, rfl⟩ := List.mem_map.mp (firstMaxBy_mem _ _ _ hg₀)
    rw [hd, monthsOf_setMonthCol] at hm
    exact hm
  · obtain ⟨m, hm, rfl⟩ := List.mem_map.mp (firstMaxBy_mem _ _ _ hg₀)
    simp only
    rw [hd, monthSum_setMonthCol]
  · intro m hm
    have hy : (⟨c, m, monthSum d c m⟩ : GRow) ∈
        (monthsOf d c).map (fun m => (⟨c, m, monthSum d c m⟩ : GRow)) := by
      refine List.mem_map.mpr ⟨m, ?_, rfl⟩
      rw [hd, monthsOf_setMonthCol]
      exact hm
    have := firstMaxBy_le _ _ _ hg₀ _ hy
    simpa [hd, monthSum_setMonthCol] using this
  · intro m hm hsum
    have hy : (⟨c, m, monthSum d c m⟩ : GRow) ∈
        (monthsOf d c).map (fun m => (⟨c, m, monthSum d c m⟩ : GRow)) := by
      refine List.mem_map.mpr ⟨m, ?_, rfl⟩
      rw [hd, monthsOf_setMonthCol]
      exact hm
    have hp : ((monthsOf d c).map
        (fun m => (⟨c, m, monthSum d c m⟩ : GRow))).Pairwise
        (fun a b => monthLTB a.Month b.Month = true) := by
      rw [List.pairwise_map]
      exact pairwise_monthsOf d c
    have hfy : g₀.Total_Streams ≤ monthSum d c m := by
      rw [hd, monthSum_setMonthCol]
      exact le_of_eq hsum.symm
    rcases firstMaxBy_pairwise (fun g : GRow => g.Total_Streams) _ hp _ hg₀
        _ hy hfy with heq | hlt
    · rw [heq]
      exact monthLEB_refl m
    · exact monthLTB_imp_monthLEB _ _ hlt

/-! ### Facts about the filename extractors -/

theorem splitDash_ne_nil (cs : List Char) : splitDash cs ≠ [] := by
  cases cs with
  | nil => simp [splitDash]
  | cons c rest =>
    unfold splitDash
    by_cases hc : c = '-'
    · simp [hc]
    · simp only [hc, if_false]
      cases splitDash rest <;> simp

theorem splitDash_no_dash (cs : List Char)
    (h : (splitDash cs).length ≤ 1) : '-' ∉ cs := by
  induction cs with
  | nil => simp
  | cons c rest ih =>
    unfold splitDash at h
    by_cases hc : c = '-'
    · exfalso
      rw [if_pos hc] at h
      cases hrest : splitDash rest with
      | nil => exact splitDash_ne_nil rest hrest
      | cons g gs => rw [hrest] at h; simp at h
    · rw [if_neg hc] at h
      intro hmem
      rcases List.mem_cons.mp hmem with heq | hmem'
      · exact hc heq.symm
      · refine ih ?_ hmem'
        cases hrest : splitDash rest with
        | nil => exact absurd hrest (splitDash_ne_nil rest)
        | cons g gs =>
          rw [hrest] at h
          simpa using h

theorem matchDateAt_dash (cs : List Char) (m : List Char)
    (h : matchDateAt cs = some m) : '-' ∈ cs ∧ m <+: cs := by
  unfold matchDateAt at h
  split at h
  next d1 d2 d3 d4 m1 m2 t1 t2 rest =>
    split at h
    · rw [Option.some.injEq] at h
      subst h
      refine ⟨?_, ⟨rest, rfl⟩⟩
      simp
    · cases h
  next => cases h

theorem findDate_substring (cs m : List Char) (h : findDate cs = some m) :
    m <:+: cs := by
  induction cs with
  | nil => simp [findDate] at h
  | cons c rest ih =>
    unfold findDate at h
    cases hm : matchDateAt (c :: rest) with
    | some m' =>
      rw [hm] at h
      rw [Option.some.injEq] at h
      subst h
      exact (matchDateAt_dash _ _ hm).2.isInfix
    | none =>
      rw [hm] at h
      obtain ⟨s', t', hst⟩ := ih h
      exact ⟨c :: s', t', by rw [← hst]; simp⟩

theorem findDate_none_of_no_dash (cs : List Char) (h : '-' ∉ cs) :
    findDate cs = none := by
  induction cs with
  | nil => rfl
  | cons c rest ih =>
    unfold findDate
    cases hm : matchDateAt (c :: rest) with
    | some m' => exact absurd (matchDateAt_dash _ _ hm).1 h
    | none => exact ih (fun hr => h (List.mem_cons_of_mem c hr))

theorem extract_date_unknown_of_short (s : String)
    (h : (splitDash s.data).length ≤ 1) :
    extract_date_from_filename s = "UNKNOWN" := by
  unfold extract_date_from_filename
  rw [findDate_none_of_no_dash s.data (splitDash_no_dash s.data h)]

theorem extract_country_unknown_of_short (s : String)
    (h : (splitDash s.data).length ≤ 1) :
    extract_country_from_filename s = "UNKNOWN" := by
  unfold extract_country_from_filename
  cases hsp : splitDash s.data with
  | nil => rfl
  | cons p ps =>
    cases ps with
    | nil => rfl
    | cons p1 rest => rw [hsp] at h; simp at h

theorem extract_country_of_parts (s : String) (p0 p1 : List Char)
    (rest : List (List Char)) (h : splitDash s.data = p0 :: p1 :: rest) :
    extract_country_from_filename s = String.mk (upperChars p1) := by
  unfold extract_country_from_filename
  rw [h]

theorem parseYmd_valid (s : String) (t : DateT) (h : parseYmd s = some t) :
    validYmd t.year t.month t.day = true := by
  unfold parseYmd at h
  split at h
  · dsimp only at h
    split at h
    · split at h
      next hv =>
        rw [Option.some.injEq] at h
        subst h
        exact hv
      next => cases h
    · cases h
  · cases h

theorem extract_date_spec (s : String) :
    extract_date_from_filename s = "UNKNOWN" ∨
    extract_date_from_filename s = "INVALID_DATE" ∨
    ((extract_date_from_filename s).data <:+: s.data ∧
      (parseYmd (extract_date_from_filename s)).isSome = true) := by
  unfold extract_date_from_filename
  cases hf : findDate s.data with
  | none => exact Or.inl rfl
  | some m =>
    by_cases hp : (parseYmd (String.mk m)).isSome = true
    · refine Or.inr (Or.inr ?_)
      dsimp only
      rw [if_pos hp]
      exact ⟨findDate_substring _ _ hf, hp⟩
    · refine Or.inr (Or.inl ?_)
      dsimp only
      rw [if_neg hp]

/-! ### Error behaviour of the merge -/

theorem except_error_bind {ε α β : Type} (e : ε) (k : α → Except ε β) :
    (Except.error e >>= k) = Except.error e := rfl

theorem except_ok_bind {ε α β : Type} (a : α) (k : α → Except ε β) :
    (Except.ok a >>= k) = k a := rfl

theorem mergeStep_skip (acc : List (String × List MRow)) (f : SrcFile)
    (h : extract_date_from_filename f.name = "INVALID_DATE" ∨
      extract_date_from_filename f.name = "UNKNOWN") :
    mergeStep acc f = Except.ok acc := by
  unfold mergeStep
  rw [if_pos h]

theorem foldlM_mergeStep_skip (f : SrcFile)
    (hf : extract_date_from_filename f.name = "INVALID_DATE" ∨
      extract_date_from_filename f.name = "UNKNOWN") :
    ∀ (l1 l2 : List SrcFile) (acc : List (String × List MRow)),
      (l1 ++ f :: l2).foldlM mergeStep acc = (l1 ++ l2).foldlM mergeStep acc := by
  intro l1
  induction l1 with
  | nil =>
    intro l2 acc
    simp only [List.nil_append, List.foldlM_cons]
    rw [mergeStep_skip acc f hf, except_ok_bind]
  | cons x l1' ih =>
    intro l2 acc
    simp only [List.cons_append, List.foldlM_cons]
    cases hx : mergeStep acc x with
    | error e => rw [except_error_bind, except_error_bind]
    | ok acc' =>
      rw [except_ok_bind, except_ok_bind]
      exact ih l2 acc'

theorem foldlM_mergeStep_all_skip (files : List SrcFile)
    (h : ∀ f ∈ files, extract_date_from_filename f.name = "INVALID_DATE" ∨
      extract_date_from_filename f.name = "UNKNOWN") :
    ∀ acc : List (String × List MRow),
      files.foldlM mergeStep acc = Except.ok acc := by
  induction files with
  | nil => intro acc; rfl
  | cons x rest ih =>
    intro acc
    rw [List.foldlM_cons, mergeStep_skip acc x (h x (List.mem_cons_self x rest)),
      except_ok_bind]
    exact ih (fun f hf => h f (List.mem_cons_of_mem x hf)) acc

/-! ### Concrete demonstration inputs -/

/-- One well-formed chart file (with a zero-stream and a null-stream row)
plus one file whose name carries no date (which the merge skips). -/
def cleanDemoFiles : List SrcFile :=
  [⟨"regional-us-weekly-2023-01-01.csv",
    some [⟨"A", "t", some 1000⟩, ⟨"B", "u", some 0⟩, ⟨"C", "v", none⟩]⟩,
   ⟨"badname.csv", some [⟨"X", "x", some 5⟩]⟩]

/-- The cleaned merged table the merge produces for `cleanDemoFiles`. -/
def cleanDemoOut : List CRow :=
  [⟨"A", "t", some 1000, "US", ⟨2023, 1, 1⟩, none⟩,
   ⟨"B", "u", some 0, "US", ⟨2023, 1, 1⟩, none⟩,
   ⟨"C", "v", none, "US", ⟨2023, 1, 1⟩, none⟩]

/-- A well-formed file followed by a file whose content `pd.read_csv`
cannot parse. -/
def unreadableDemoFiles : List SrcFile :=
  [⟨"regional-us-weekly-2023-01-01.csv", some [⟨"A", "t", some 1000⟩]⟩,
   ⟨"regional-gb-weekly-2023-01-08.csv", none⟩]

/-- A dashed filename whose second `'-'`-separated segment is literally
`unknown`, with a valid embedded date. -/
def unknownCountryFile : SrcFile :=
  ⟨"regional-unknown-weekly-2023-06-15.csv", some [⟨"A", "t", some 7⟩]⟩

/-- Files all of whose names fail date extraction (absent or invalid). -/
def allSkippedFiles : List SrcFile :=
  [⟨"noformat.csv", some [⟨"X", "x", some 5⟩]⟩,
   ⟨"regional-xx-weekly-9999-99-99.csv", some [⟨"Y", "y", some 6⟩]⟩]

/-! ### Claim C1 -/

/-- C1 counterexample: the cleaned merged table that `merge_by_country`
writes can contain rows with zero and with null `streams` — the merge
performs no streams cleaning at all, contradicting the claim that every
row's `streams` is non-null and strictly positive. -/
theorem C1_cex_streams_not_cleaned :
    merge_by_country cleanDemoFiles = Except.ok cleanDemoOut ∧
    cleanDemoOut.any (fun r => decide (r.streams = some 0)) = true ∧
    cleanDemoOut.any (fun r => decide (r.streams = none)) = true :=
  ⟨rfl, rfl, rfl⟩

/-- C1 amended: for every row of the cleaned merged table that
`merge_by_country` hands to the analyzers, the `Date` field is a valid
calendar date (the `errors='coerce'` conversion plus `dropna` guarantee it);
the `streams` field is carried through unchanged and may be null, zero or
negative. -/
theorem C1_merged_dates_valid (files : List SrcFile) (out : List CRow)
    (hok : merge_by_country files = Except.ok out) :
    ∀ r ∈ out, validYmd r.Date.year r.Date.month r.Date.day = true := by
  unfold merge_by_country at hok
  cases hcd : files.foldlM mergeStep [] with
  | error e => rw [hcd] at hok; cases hok
  | ok cd =>
    rw [hcd] at hok
    dsimp only at hok
    by_cases he : cd.isEmpty
    · rw [if_pos he] at hok; cases hok
    · rw [if_neg he] at hok
      rw [Except.ok.injEq] at hok
      subst hok
      intro r hr
      obtain ⟨mr, _, hco⟩ := List.mem_filterMap.mp hr
      unfold coerceDate at hco
      cases hp : parseYmd mr.Date with
      | none => rw [hp] at hco; cases hco
      | some dt =>
        rw [hp] at hco
        rw [Option.some.injEq] at hco
        rw [← hco]
        exact parseYmd_valid mr.Date dt hp

/-- C1 witness: the amended theorem applied to the concrete run. -/
theorem C1_merged_dates_valid_witness : validYmd 2023 1 1 = true :=
  C1_merged_dates_valid cleanDemoFiles cleanDemoOut rfl
    ⟨"A", "t", some 1000, "US", ⟨2023, 1, 1⟩, none⟩ (by decide)

/-! ### Claim C3 -/

/-- C3 counterexample: a directory holding a parseable file and an
unparseable one does not complete over the remaining files — the run
aborts with `read_csv`'s error, because line 66's `pd.read_csv` call is not
guarded by any try/except. -/
theorem C3_cex_unreadable_csv_raises :
    merge_by_country unreadableDemoFiles =
      Except.error "read_csv failed: regional-gb-weekly-2023-01-08.csv" :=
  rfl

/-- C3 amended: a file whose *filename* carries no parseable date is
logged and skipped, but a file whose *content* cannot be parsed as CSV
makes `merge_by_country` raise and abort the whole run whenever its
filename metadata is valid. -/
theorem C3_unparseable_csv_aborts (files : List SrcFile) (f : SrcFile)
    (hmem : f ∈ files) (hcontent : f.content = none)
    (hdate : ¬ (extract_date_from_filename f.name = "INVALID_DATE" ∨
      extract_date_from_filename f.name = "UNKNOWN")) :
    (merge_by_country files).isOk = false := by
  have key : ∀ (fs : List SrcFile) (acc : List (String × List MRow)),
      f ∈ fs → ∃ e, fs.foldlM mergeStep acc = Except.error e := by
    intro fs
    induction fs with
    | nil => intro acc h; exact absurd h (List.not_mem_nil f)
    | cons x rest ih =>
      intro acc hmem'
      rw [List.foldlM_cons]
      cases hx : mergeStep acc x with
      | error e => rw [except_error_bind]; exact ⟨e, rfl⟩
      | ok acc' =>
        rw [except_ok_bind]
        rcases List.mem_cons.mp hmem' with rfl | hmem''
        · exfalso
          unfold mergeStep at hx
          rw [if_neg hdate, hcontent] at hx
          cases hx
        · exact ih acc' hmem''
  obtain ⟨e, he⟩ := key files [] hmem
  unfold merge_by_country
  rw [he]
  rfl

/-- C3 witness: the amended theorem applied to the concrete run. -/
theorem C3_unparseable_csv_aborts_witness :
    (merge_by_country unreadableDemoFiles).isOk = false :=
  C3_unparseable_csv_aborts unreadableDemoFiles
    ⟨"regional-gb-weekly-2023-01-08.csv", none⟩ (by decide) rfl (by decide)

/-! ### Claim C7 -/

/-- C7 counterexample: a dashed filename whose second segment is
literally `unknown` makes the country extractor return the sentinel
`"UNKNOWN"`, yet the merge does **not** skip the file (it only checks the
date): its rows appear in the merged table, tagged `Country = "UNKNOWN"`. -/
theorem C7_cex_unknown_country_not_skipped :
    extract_country_from_filename unknownCountryFile.name = "UNKNOWN" ∧
    merge_by_country [unknownCountryFile] =
      Except.ok [⟨"A", "t", some 7, "UNKNOWN", ⟨2023, 6, 15⟩, none⟩] :=
  ⟨rfl, rfl⟩

/-- C7 amended: every file whose extracted date is a sentinel (bad or
absent date) is skipped, and a file whose filename has no second
`'-'`-separated segment (absent country) is skipped too, since a dashless
name can contain no date match; but a country sentinel arising from a
dashed name (second segment literally `unknown`) does not cause a skip. -/
theorem C7_skip_files_without_date_metadata (l1 l2 : List SrcFile)
    (f : SrcFile)
    (h : extract_date_from_filename f.name = "INVALID_DATE" ∨
      extract_date_from_filename f.name = "UNKNOWN" ∨
      (splitDash f.name.data).length ≤ 1) :
    merge_by_country (l1 ++ f :: l2) = merge_by_country (l1 ++ l2) := by
  have hdate : extract_date_from_filename f.name = "INVALID_DATE" ∨
      extract_date_from_filename f.name = "UNKNOWN" := by
    rcases h with h | h | h
    · exact Or.inl h
    · exact Or.inr h
    · exact Or.inr (extract_date_unknown_of_short f.name h)
  unfold merge_by_country
  rw [foldlM_mergeStep_skip f hdate l1 l2 []]

/-- C7 witness: the amended theorem applied to a concrete directory
containing a dateless file. -/
theorem C7_skip_files_without_date_metadata_witness :
    merge_by_country
        [⟨"regional-us-weekly-2023-01-01.csv", some [⟨"A", "t", some 1⟩]⟩,
         ⟨"noformat.csv", some [⟨"X", "x", some 5⟩]⟩,
         ⟨"regional-br-weekly-2023-01-01.csv", some [⟨"B", "u", some 2⟩]⟩] =
      merge_by_country
        [⟨"regional-us-weekly-2023-01-01.csv", some [⟨"A", "t", some 1⟩]⟩,
         ⟨"regional-br-weekly-2023-01-01.csv", some [⟨"B", "u", some 2⟩]⟩] :=
  C7_skip_files_without_date_metadata
    [⟨"regional-us-weekly-2023-01-01.csv", some [⟨"A", "t", some 1⟩]⟩]
    [⟨"regional-br-weekly-2023-01-01.csv", some [⟨"B", "u", some 2⟩]⟩]
    ⟨"noformat.csv", some [⟨"X", "x", some 5⟩]⟩ (by decide)

/-! ### Claim C8 -/

/-- C8: when every discovered CSV file is skipped, the merged dict is
empty and `merge_by_country` raises `pd.concat`'s
`ValueError("No objects to concatenate")` instead of writing an empty
`final_merged_data.csv` and running the analyzers. -/
theorem C8_all_skipped_raises (files : List SrcFile)
    (h : ∀ f ∈ files, extract_date_from_filename f.name = "INVALID_DATE" ∨
      extract_date_from_filename f.name = "UNKNOWN") :
    merge_by_country files = Except.error "No objects to concatenate" := by
  unfold merge_by_country
  rw [foldlM_mergeStep_all_skip files h []]
  rfl

/-- C8 witness: the theorem applied to a concrete all-skipped input. -/
theorem C8_all_skipped_raises_witness :
    merge_by_country allSkippedFiles =
      Except.error "No objects to concatenate" :=
  C8_all_skipped_raises allSkippedFiles (by decide)

/-! ### Claim C6 -/

/-- C6: filename metadata extraction: for a filename with at least two
`'-'`-separated segments the country is the upper-cased second segment,
otherwise the sentinel `"UNKNOWN"`; a non-sentinel extracted date is a
`YYYY-MM-DD` substring of the filename that parses as a valid calendar
date, and otherwise a sentinel is returned; in particular
`regional-au-weekly-2023-06-15.csv ↦ ("AU", 2023-06-15)` and
`noformat.csv ↦ ("UNKNOWN", sentinel)`. -/
theorem C6_filename_metadata_extraction :
    (∀ (s : String) (p0 p1 : List Char) (rest : List (List Char)),
      splitDash s.data = p0 :: p1 :: rest →
      extract_country_from_filename s = String.mk (upperChars p1)) ∧
    (∀ s : String, (splitDash s.data).length ≤ 1 →
      extract_country_from_filename s = "UNKNOWN") ∧
    (∀ s : String, extract_date_from_filename s ≠ "UNKNOWN" →
      extract_date_from_filename s ≠ "INVALID_DATE" →
      (extract_date_from_filename s).data <:+: s.data ∧
        (parseYmd (extract_date_from_filename s)).isSome = true) ∧
    extract_country_from_filename "regional-au-weekly-2023-06-15.csv" = "AU" ∧
    extract_date_from_filename "regional-au-weekly-2023-06-15.csv" =
      "2023-06-15" ∧
    extract_country_from_filename "noformat.csv" = "UNKNOWN" ∧
    extract_date_from_filename "noformat.csv" = "UNKNOWN" := by
  refine ⟨extract_country_of_parts, extract_country_unknown_of_short, ?_,
    by decide, by decide, by decide, by decide⟩
  intro s h1 h2
  rcases extract_date_spec s with h | h | h
  · exact absurd h h1
  · exact absurd h h2
  · exact h

/-- C6 witness: the third conjunct applied to the concrete filename of
the claim. -/
theorem C6_filename_metadata_extraction_witness :
    (extract_date_from_filename "regional-au-weekly-2023-06-15.csv").data <:+:
      ("regional-au-weekly-2023-06-15.csv" : String).data ∧
    (parseYmd
      (extract_date_from_filename "regional-au-weekly-2023-06-15.csv")).isSome
      = true :=
  C6_filename_metadata_extraction.2.2.1 "regional-au-weekly-2023-06-15.csv"
    (by decide) (by decide)

/-! ### Claim C9 -/

/-- C9: the filename extractors are total functions that never raise:
for every input string the date extractor returns either a sentinel
(`"UNKNOWN"` / `"INVALID_DATE"`) or a validly parsing date string (the
`except ValueError` around `pd.to_datetime` converts the only possible
exception into the sentinel), and the country extractor returns either the
sentinel `"UNKNOWN"` or the upper-casing of one of the filename's
`'-'`-separated segments. -/
theorem C9_extractors_total (s : String) :
    (extract_date_from_filename s = "UNKNOWN" ∨
     extract_date_from_filename s = "INVALID_DATE" ∨
     (parseYmd (extract_date_from_filename s)).isSome = true) ∧
    (extract_country_from_filename s = "UNKNOWN" ∨
     ∃ p ∈ splitDash s.data,
       extract_country_from_filename s = String.mk (upperChars p)) := by
  constructor
  · rcases extract_date_spec s with h | h | h
    · exact Or.inl h
    · exact Or.inr (Or.inl h)
    · exact Or.inr (Or.inr h.2)
  · cases hsp : splitDash s.data with
    | nil =>
      refine Or.inl ?_
      unfold extract_country_from_filename
      rw [hsp]
    | cons p ps =>
      cases ps with
      | nil => exact Or.inl (extract_country_unknown_of_short s (by rw [hsp]; simp))
      | cons p1 rest =>
        exact Or.inr ⟨p1, by simp,
          extract_country_of_parts s p p1 rest hsp⟩

/-! ### Claim C4 -/

/-- Two rows that agree on every column except the derived `Month`. -/
def sameExceptMonth (r r' : CRow) : Prop :=
  r'.artist_names = r.artist_names ∧ r'.track_name = r.track_name ∧
  r'.streams = r.streams ∧ r'.Country = r.Country ∧ r'.Date = r.Date

theorem forall₂_map_self {α : Type} {R : α → α → Prop} (f : α → α)
    (h : ∀ a, R a (f a)) (l : List α) : List.Forall₂ R l (l.map f) := by
  induction l with
  | nil => exact List.Forall₂.nil
  | cons a as ih => exact List.Forall₂.cons (h a) ih

theorem setMonthCol_congr (d₁ d₂ : List CRow)
    (h : List.Forall₂ sameExceptMonth d₁ d₂) :
    setMonthCol d₁ = setMonthCol d₂ := by
  induction h with
  | nil => rfl
  | cons hr _ ih =>
    rename_i r r' _ _
    unfold setMonthCol at ih ⊢
    simp only [List.map_cons, ih]
    congr 1
    obtain ⟨h1, h2, h3, h4, h5⟩ := hr
    simp [monthKey, h1, h2, h3, h4, h5]

/-- A row with no `Month` column yet. -/
def pristineRow : CRow := ⟨"A", "t", some 10, "US", ⟨2023, 1, 1⟩, none⟩

/-- A row with a null streams cell and no `Month` column. -/
def nullStreamsRow : CRow := ⟨"A", "t", none, "US", ⟨2023, 1, 1⟩, none⟩

/-- C4 counterexample: analyzers are not frame-pure:
`analyze_streaming_by_month` hands back a table that differs from the one
it received (it assigns the derived `Month` column into the shared table),
and `analyze_growth_rate_of_artists_and_tracks` overwrites a null `streams`
cell with `0` in place. -/
theorem C4_cex_analyzers_mutate_table :
    (analyze_streaming_by_month [pristineRow]).2 ≠ [pristineRow] ∧
    (analyze_growth_rate_of_artists_and_tracks [nullStreamsRow]).2 ≠
      [nullStreamsRow] := by
  constructor <;> decide

/-- C4 amended: the analyzers mutate the shared merged table, but only
in circumscribed ways: `analyze_streaming_by_month` adds/overwrites the
derived `Month` column (every other field of every row is unchanged), and
its *result* is insensitive to any prior `Month`-column writes — so in the
pipeline, where each analyzer recomputes `Month` from `Date`, results do
not depend on which analyzers ran before; `analyze_growth_rate_of_artists_
and_tracks` replaces null `streams` cells by `0` in place and changes
nothing else in the shared table. -/
theorem C4_analyzer_frame_effects :
    (∀ data : List CRow, List.Forall₂
      (fun r r' => sameExceptMonth r r' ∧ r'.month = some (monthKey r))
      data (analyze_streaming_by_month data).2) ∧
    (∀ d₁ d₂ : List CRow, List.Forall₂ sameExceptMonth d₁ d₂ →
      (analyze_streaming_by_month d₁).1 = (analyze_streaming_by_month d₂).1) ∧
    (∀ data : List CRow, List.Forall₂
      (fun r r' => r'.artist_names = r.artist_names ∧
        r'.track_name = r.track_name ∧ r'.Country = r.Country ∧
        r'.Date = r.Date ∧ r'.month = r.month ∧
        r'.streams = some (r.streams.getD 0))
      data (analyze_growth_rate_of_artists_and_tracks data).2) := by
  refine ⟨?_, ?_, ?_⟩
  · intro data
    exact forall₂_map_self _ (fun a => ⟨⟨rfl, rfl, rfl, rfl, rfl⟩, rfl⟩) data
  · intro d₁ d₂ h
    unfold analyze_streaming_by_month
    rw [setMonthCol_congr d₁ d₂ h]
  · intro data
    exact forall₂_map_self _ (fun a => ⟨rfl, rfl, rfl, rfl, rfl, rfl⟩) data

/-- C4 witness: the invariance conjunct applied to two concrete tables
differing only in their `Month` column. -/
theorem C4_analyzer_frame_effects_witness :
    (analyze_streaming_by_month [pristineRow]).1 =
      (analyze_streaming_by_month
        [⟨"A", "t", some 10, "US", ⟨2023, 1, 1⟩, some (2020, 12)⟩]).1 :=
  C4_analyzer_frame_effects.2.1 [pristineRow]
    [⟨"A", "t", some 10, "US", ⟨2023, 1, 1⟩, some (2020, 12)⟩]
    (List.Forall₂.cons ⟨rfl, rfl, rfl, rfl, rfl⟩ List.Forall₂.nil)

/-! ### Claim C2 -/

/-- One (Country, Month) group of six tracks whose alphabetically last
track (`"f"`) has by far the most streams. -/
def topDemoData : List CRow :=
  [⟨"x", "a", some 1, "US", ⟨2023, 1, 1⟩, none⟩,
   ⟨"x", "b", some 2, "US", ⟨2023, 1, 1⟩, none⟩,
   ⟨"x", "c", some 3, "US", ⟨2023, 1, 1⟩, none⟩,
   ⟨"x", "d", some 4, "US", ⟨2023, 1, 1⟩, none⟩,
   ⟨"x", "e", some 5, "US", ⟨2023, 1, 1⟩, none⟩,
   ⟨"x", "f", some 100, "US", ⟨2023, 1, 1⟩, none⟩]

/-- C2: the written monthly top-tracks table takes `head(5)` of the
*unsorted* aggregate — line 218 reads from `monthly_top_tracks`, discarding
the descending-by-streams sort computed on line 217 — so the retained rows
are the first five in (track, artist) lexicographic key order and the
excluded row `("f", 100)` out-streams every retained row; the discarded
sorted table of line 217 would have put that row first. -/
theorem C2_head5_ignores_sort :
    (analyze_monthly_top_artists_and_tracks topDemoData).1 =
      [⟨"US", (2023, 1), "a", "x", 1⟩, ⟨"US", (2023, 1), "b", "x", 2⟩,
       ⟨"US", (2023, 1), "c", "x", 3⟩, ⟨"US", (2023, 1), "d", "x", 4⟩,
       ⟨"US", (2023, 1), "e", "x", 5⟩] ∧
    (⟨"US", (2023, 1), "f", "x", 100⟩ : TRow) ∈
      monthly_top_tracks (setMonthCol topDemoData) ∧
    (⟨"US", (2023, 1), "f", "x", 100⟩ : TRow) ∉
      (analyze_monthly_top_artists_and_tracks topDemoData).1 ∧
    ((analyze_monthly_top_artists_and_tracks topDemoData).1.all
      (fun r => decide (r.Total_Streams < 100))) = true ∧
    (top_monthly_tracks_sorted topDemoData).head? =
      some ⟨"US", (2023, 1), "f", "x", 100⟩ := by
  refine ⟨by decide, by decide, by decide, by decide, by decide⟩

/-! ### Claim C10, witness data -/

/-- Three months of one country, the later two tying for the maximum. -/
def monthDemoData : List CRow :=
  [⟨"A", "t", some 10, "US", ⟨2023, 1, 1⟩, none⟩,
   ⟨"A", "t", some 20, "US", ⟨2023, 2, 1⟩, none⟩,
   ⟨"A", "t", some 20, "US", ⟨2023, 3, 1⟩, none⟩]

/-- C10 witness: the theorem applied to a concrete table with a tie —
the reported row is the earliest maximising month, `2023-02`. -/
theorem C10_monthly_max_per_country_witness :
    ∃ g : MaxRow,
      ((analyze_streaming_by_month monthDemoData).1.filter
          (fun row => row.Country == "US")) = [g] ∧
      g.Month ∈ monthsOf monthDemoData "US" ∧
      g.Max_Streams = monthSum monthDemoData "US" g.Month ∧
      (∀ m ∈ monthsOf monthDemoData "US",
        monthSum monthDemoData "US" m ≤ g.Max_Streams) ∧
      (∀ m ∈ monthsOf monthDemoData "US",
        monthSum monthDemoData "US" m = g.Max_Streams →
        monthLEB g.Month m = true) :=
  C10_monthly_max_per_country monthDemoData "US"
    ⟨⟨"A", "t", some 10, "US", ⟨2023, 1, 1⟩, none⟩, by decide, rfl⟩

/-! ### Claim C5: supporting lemmas -/

/-- Every row the growth scan emits carries the classification of its own
growth rate. -/
theorem growthScan_trend (rows : List CRow) :
    ∀ (k : Option (String × String × String)) (p : ℤ) (r : GrRow),
      r ∈ growthScan k p rows →
      r.Trend_Status = determine_trend_status r.Growth_Rate := by
  induction rows with
  | nil => intro k p r hr; simp [growthScan] at hr
  | cons x rest ih =>
    intro k p r hr
    unfold growthScan at hr
    dsimp only at hr
    rcases List.mem_cons.mp hr with rfl | hr'
    · rfl
    · exact ih _ _ r hr'

/-- Natural-language side of the refinement, modelled from the spec's
words: the percent change of each stream count against its predecessor,
expressed as a percentage. -/
def spec_percent_change_step (prev : ℤ) : List ℤ → List ℚ
  | [] => []
  | v :: vs =>
    (((v : ℚ) - (prev : ℚ)) / (prev : ℚ) * 100) :: spec_percent_change_step v vs

/-- Natural-language side of the refinement, modelled from the spec's
words: the growth-rate series of one (country, artist, track) group — first
row 0, then consecutive percent changes. -/
def spec_percent_change : List ℤ → List ℚ
  | [] => []
  | v :: vs => 0 :: spec_percent_change_step v vs

/-- The rows of one (Country, artist, track) series with the given dates
and stream counts. -/
def seriesRows (c a t : String) (ss : List (DateT × ℤ)) : List CRow :=
  ss.map fun p => ⟨a, t, some p.2, c, p.1, none⟩

theorem insertLe_head (le : α → α → Bool) (x : α) (l : List α)
    (h : ∀ y ∈ l, le x y = true) : insertLe le x l = x :: l := by
  cases l with
  | nil => rfl
  | cons y ys =>
    unfold insertLe
    rw [if_pos (h y (List.mem_cons_self y ys))]

theorem sortByLe_sorted_id (le : α → α → Bool) (l : List α)
    (h : l.Pairwise (fun a b => le a b = true)) : sortByLe le l = l := by
  induction l with
  | nil => rfl
  | cons x xs ih =>
    rw [List.pairwise_cons] at h
    unfold sortByLe
    rw [List.foldr_cons]
    have : List.foldr (insertLe le) [] xs = xs := ih h.2
    rw [this]
    exact insertLe_head le x xs h.1

theorem fillnaStreams_seriesRows (c a t : String) (ss : List (DateT × ℤ)) :
    fillnaStreams (seriesRows c a t ss) = seriesRows c a t ss := by
  unfold fillnaStreams seriesRows
  rw [List.map_map]
  exact List.map_congr_left (fun p _ => rfl)

theorem seriesRows_pairwise (c a t : String) (ss : List (DateT × ℤ))
    (h : ss.Pairwise (fun p q => dateLE p.1 q.1 = true)) :
    (seriesRows c a t ss).Pairwise (fun r r' => growthSortLE r r' = true) := by
  unfold seriesRows
  rw [List.pairwise_map]
  refine h.imp ?_
  intro p q hpq
  simp [growthSortLE, hpq]

theorem growthScan_group (c a t : String) :
    ∀ (ss : List (DateT × ℤ)) (prev : ℤ), prev ≠ 0 →
      (∀ p ∈ ss, p.2 ≠ 0) →
      (growthScan (some (c, a, t)) prev (seriesRows c a t ss)).map
          (fun r => r.Growth_Rate) =
        (spec_percent_change_step prev (ss.map Prod.snd)).map PVal.val := by
  intro ss
  induction ss with
  | nil => intro prev _ _; rfl
  | cons p ps ih =>
    intro prev hprev h0
    show (growthScan (some (c, a, t)) prev
        (⟨a, t, some p.2, c, p.1, none⟩ :: seriesRows c a t ps)).map
        (fun r => r.Growth_Rate) =
      (spec_percent_change_step prev (p.2 :: ps.map Prod.snd)).map PVal.val
    unfold growthScan
    dsimp only
    rw [if_pos rfl]
    unfold spec_percent_change_step
    simp only [List.map_cons]
    congr 1
    · show pctRate prev p.2 = PVal.val (((p.2 : ℚ) - (prev : ℚ)) / (prev : ℚ) * 100)
      unfold pctRate
      rw [if_neg hprev]
    · exact ih p.2 (h0 p (List.mem_cons_self p ps))
        (fun q hq => h0 q (List.mem_cons_of_mem p hq))

theorem analyze_growth_series (c a t : String) (ss : List (DateT × ℤ))
    (hsorted : ss.Pairwise (fun p q => dateLE p.1 q.1 = true))
    (h0 : ∀ p ∈ ss, p.2 ≠ 0) :
    ((analyze_growth_rate_of_artists_and_tracks (seriesRows c a t ss)).1.map
        (fun r => r.Growth_Rate)) =
      (spec_percent_change (ss.map Prod.snd)).map PVal.val := by
  unfold analyze_growth_rate_of_artists_and_tracks
  dsimp only
  rw [fillnaStreams_seriesRows,
    sortByLe_sorted_id _ _ (seriesRows_pairwise c a t ss hsorted)]
  cases ss with
  | nil => rfl
  | cons p ps =>
    show (growthScan none 0
        (⟨a, t, some p.2, c, p.1, none⟩ :: seriesRows c a t ps)).map
        (fun r => r.Growth_Rate) =
      (spec_percent_change (p.2 :: ps.map Prod.snd)).map PVal.val
    unfold growthScan
    dsimp only
    rw [if_neg (by simp)]
    unfold spec_percent_change
    simp only [List.map_cons]
    congr 1
    exact growthScan_group c a t ps p.2 (h0 p (List.mem_cons_self p ps))
      (fun q hq => h0 q (List.mem_cons_of_mem p hq))

/-- The synthetic three-row series of the claim: streams 100, 106, 94 on
consecutive weekly dates for one (Country, artist, track) group. -/
def growthDemoData : List CRow :=
  [⟨"x", "t", some 100, "US", ⟨2023, 6, 1⟩, none⟩,
   ⟨"x", "t", some 106, "US", ⟨2023, 6, 8⟩, none⟩,
   ⟨"x", "t", some 94, "US", ⟨2023, 6, 15⟩, none⟩]

/-- C5: within each (Country, artist, track) series ordered by `Date`
the growth rate is the percent change of streams with the first row 0 (the
series law, for any series of nonzero stream counts), `Trend_Status` is
"Growth" exactly when the rate exceeds 5, "Decline" exactly when it is
below −5, and "Stable" otherwise; on the synthetic series
`[100, 106, 94]` the rates are `[0, 6, −600/53]` — the last rounding to
−11.32 — with statuses `[Stable, Growth, Decline]`. -/
theorem C5_growth_rate_classification :
    (((analyze_growth_rate_of_artists_and_tracks growthDemoData).1.map
        (fun r => r.Growth_Rate)) =
      [PVal.val 0, PVal.val 6, PVal.val (-600 / 53)]) ∧
    (((analyze_growth_rate_of_artists_and_tracks growthDemoData).1.map
        (fun r => r.Trend_Status)) = ["Stable", "Growth", "Decline"]) ∧
    (round ((-600 : ℚ) / 53 * 100) = -1132) ∧
    (∀ data : List CRow,
      ∀ r ∈ (analyze_growth_rate_of_artists_and_tracks data).1, ∀ q : ℚ,
        r.Growth_Rate = PVal.val q →
        ((r.Trend_Status = "Growth" ↔ 5 < q) ∧
         (r.Trend_Status = "Decline" ↔ q < -5) ∧
         (r.Trend_Status = "Stable" ↔ (¬ 5 < q ∧ ¬ q < -5)))) ∧
    (∀ (c a t : String) (ss : List (DateT × ℤ)),
      ss.Pairwise (fun p q => dateLE p.1 q.1 = true) →
      (∀ p ∈ ss, p.2 ≠ 0) →
      ((analyze_growth_rate_of_artists_and_tracks
          (seriesRows c a t ss)).1.map (fun r => r.Growth_Rate)) =
        (spec_percent_change (ss.map Prod.snd)).map PVal.val) := by
  refine ⟨?_, ?_, ?_, ?_, analyze_growth_series⟩
  · simp [analyze_growth_rate_of_artists_and_tracks, fillnaStreams, sortByLe,
      insertLe, growthSortLE, growthDemoData, growthScan, pctRate, strLtB,
      ltChars, dateLE]
    norm_num
  · simp [analyze_growth_rate_of_artists_and_tracks, fillnaStreams, sortByLe,
      insertLe, growthSortLE, growthDemoData, growthScan, pctRate, strLtB,
      ltChars, dateLE, determine_trend_status]
    norm_num
  · norm_num [round_eq]
  · intro data r hr q hq
    have ht : r.Trend_Status = determine_trend_status r.Growth_Rate :=
      growthScan_trend _ _ _ r hr
    rw [hq] at ht
    unfold determine_trend_status at ht
    dsimp only at ht
    by_cases h1 : q > 5
    · rw [if_pos h1] at ht
      refine ⟨⟨fun _ => h1, fun _ => ht⟩, ?_, ?_⟩
      · constructor
        · intro hs; rw [ht] at hs; exact absurd hs (by decide)
        · intro hlt; exact absurd (lt_trans hlt (by norm_num)) (not_lt.mpr (le_of_lt h1))
      · constructor
        · intro hs; rw [ht] at hs; exact absurd hs (by decide)
        · intro ⟨ha, _⟩; exact absurd h1 ha
    · rw [if_neg h1] at ht
      by_cases h2 : q < -5
      · rw [if_pos h2] at ht
        refine ⟨?_, ⟨fun _ => h2, fun _ => ht⟩, ?_⟩
        · constructor
          · intro hs; rw [ht] at hs; exact absurd hs (by decide)
          · intro hgt; exact absurd hgt h1
        · constructor
          · intro hs; rw [ht] at hs; exact absurd hs (by decide)
          · intro ⟨_, hb⟩; exact absurd h2 hb
      · rw [if_neg h2] at ht
        refine ⟨?_, ?_, ⟨fun _ => ⟨h1, h2⟩, fun _ => ht⟩⟩
        · constructor
          · intro hs; rw [ht] at hs; exact absurd hs (by decide)
          · intro hgt; exact absurd hgt h1
        · constructor
          · intro hs; rw [ht] at hs; exact absurd hs (by decide)
          · intro hlt; exact absurd hlt h2

/-- C5 witness: the series law applied to the synthetic series. -/
theorem C5_growth_rate_classification_witness :
    ((analyze_growth_rate_of_artists_and_tracks
        (seriesRows "US" "x" "t"
          [(⟨2023, 6, 1⟩, 100), (⟨2023, 6, 8⟩, 106),
           (⟨2023, 6, 15⟩, 94)])).1.map (fun r => r.Growth_Rate)) =
      (spec_percent_change
        (([(⟨2023, 6, 1⟩, 100), (⟨2023, 6, 8⟩, 106), (⟨2023, 6, 15⟩, 94)] :
          List (DateT × ℤ)).map Prod.snd)).map PVal.val :=
  C5_growth_rate_classification.2.2.2.2 "US" "x" "t"
    [(⟨2023, 6, 1⟩, 100), (⟨2023, 6, 8⟩, 106), (⟨2023, 6, 15⟩, 94)]
    (by decide) (by decide)

end MusicTrends
